/-
Verification of the claude-collab relay/client design against its sources.

Shallow embedding of:
  - the client-side conversation repairer `validateToolMessages`
    (client collaborative session module, src/unnamed/part_003, lines 525-579);
  - the WebSocket relay server state machine (src/src/server/relay.ts) together
    with its persistence layer (src/src/server/database.ts);
  - the client tool executor path guard (src/src/client/tools/executor.ts).

Conventions used throughout the embedding:
  - TypeScript `Map` objects are modelled as association lists that preserve
    insertion order; `Map.set` replaces in place, `Map.delete` removes the
    (unique) keyed entry, iteration follows list order.
  - Nullable fields (`string | null`, `number | null`) are `Option` values;
    the JS truthiness tests the source applies to them test for `some`.
    A possibly-absent string field tested for truthiness is modelled as a
    `String` compared against `""`.
  - `Date.now()` is passed to every time-dependent step as an explicit `now`.
  - SQLite rows are kept in insertion order; `ORDER BY timestamp ASC` returns
    insertion order under the monotone wall clock the server relies on.
    Randomly generated row ids and the stored timestamps/last-activity columns
    are not observable through any modelled query and are omitted from rows.
  - Side effects of a handler (database writes, `ws.send`, `broadcast`) are
    returned as an ordered trace of `Effect`s next to the updated state, so
    ordering claims (write-before-broadcast) are about that trace.
-/
import Mathlib

namespace ClaudeCollab

/-! ## Conversation integrity repairer (client side)

Embedding of `convertToAnthropicFormat`'s validation pass
`validateToolMessages` from the collaborative client. -/

/-- Content block of an Anthropic message: text, a tool invocation
(`tool_use`, with id, name and stringified input), or a tool result
(`tool_result`, with the referenced `tool_use_id` and content). -/
inductive CBlock
  | text (s : String)
  | toolUse (id name input : String)
  | toolResult (toolUseId content : String)
deriving DecidableEq

/-- Message role as used by the client (`'user' | 'assistant'`). -/
inductive MRole
  | user
  | assistant
deriving DecidableEq

/-- Message content: either a plain string or an array of content blocks,
mirroring `string | ContentBlock[]` in `Anthropic.Messages.MessageParam`. -/
inductive MContent
  | str (s : String)
  | blocks (bs : List CBlock)
deriving DecidableEq

/-- An entry of the conversation sequence handed to the model. -/
structure MessageParam where
  role : MRole
  content : MContent
deriving DecidableEq

/-- Test for `block.type === 'tool_result'`. -/
def isToolResultBlock : CBlock → Bool
  | .toolResult _ _ => true
  | _ => false

/-- The `tool_use_id` referenced by a tool-result block, if any. -/
def toolResultId : CBlock → Option String
  | .toolResult i _ => some i
  | _ => none

/-- Ids of the `tool_use` blocks of a message's content; a non-array content
contributes none (`Array.isArray(prevMsg.content) ? prevMsg.content : []`). -/
def toolUseIdsOf (m : MessageParam) : List String :=
  match m.content with
  | .blocks bs => bs.filterMap fun b =>
      match b with
      | .toolUse i _ _ => some i
      | _ => none
  | .str _ => []

/-- Tool-result blocks of a message's array content
(`msg.content.filter(block => block.type === 'tool_result')`);
non-array content has none. -/
def toolResultBlocksOf (m : MessageParam) : List CBlock :=
  match m.content with
  | .blocks bs => bs.filter isToolResultBlock
  | .str _ => []

/-- Non-tool-result blocks of a message's array content
(`msg.content.filter(block => block.type !== 'tool_result')`). -/
def otherBlocksOf (m : MessageParam) : List CBlock :=
  match m.content with
  | .blocks bs => bs.filter fun b => !isToolResultBlock b
  | .str _ => []

/-- Filter of the tool-result blocks kept by the repairer: those whose
`tool_use_id` occurs among `ids` (`toolUseIds.has(block.tool_use_id)`). -/
def validToolResults (ids : List String) (trs : List CBlock) : List CBlock :=
  trs.filter fun b =>
    match toolResultId b with
    | some i => ids.contains i
    | none => false

/-- Loop of `validateToolMessages`, with the `result` accumulator kept in
reverse order so that the previously pushed entry
(`result[result.length - 1]`) is its head. -/
def vtmGo : List MessageParam → List MessageParam → List MessageParam
  | acc, [] => acc.reverse
  | acc, m :: rest =>
    match m.role, m.content with
    | .user, .blocks bs =>
      let toolResults := bs.filter isToolResultBlock
      if toolResults.isEmpty then
        vtmGo (m :: acc) rest
      else
        match acc with
        | [] => vtmGo acc rest
        | prev :: _ =>
          if prev.role = .assistant then
            let valid := validToolResults (toolUseIdsOf prev) toolResults
            if valid.isEmpty then
              vtmGo acc rest
            else
              let otherContent := bs.filter fun b => !isToolResultBlock b
              let validContent := otherContent ++ valid
              if validContent.isEmpty then
                vtmGo acc rest
              else
                vtmGo (⟨.user, .blocks validContent⟩ :: acc) rest
          else
            vtmGo acc rest
    | _, _ => vtmGo (m :: acc) rest

/-- The client-side repairer `validateToolMessages` (part_003, 525-579):
removes tool-result blocks that are not answered by a `tool_use` of the
immediately preceding repaired assistant entry. -/
def validateToolMessages (messages : List MessageParam) : List MessageParam :=
  vtmGo [] messages

/-- Modelled from the spec and claim wording, for comparison with
`validateToolMessages`: walk the entries in order accumulating a repaired
sequence; a user entry containing tool-result blocks is kept only if the
immediately preceding entry of the repaired sequence is an assistant entry;
exactly the tool-result blocks whose referenced identifier appears among that
assistant entry's tool-invocation ids are kept, non-tool-result blocks pass
through unchanged, and the entry is dropped entirely when no tool-result
block survives; all other entries pass through unchanged. -/
def repairSpecStep (repaired : List MessageParam) (m : MessageParam) :
    List MessageParam :=
  if m.role = .user ∧ ¬(toolResultBlocksOf m).isEmpty then
    match repaired.getLast? with
    | none => repaired
    | some prev =>
      if prev.role = .assistant then
        let kept := validToolResults (toolUseIdsOf prev) (toolResultBlocksOf m)
        if kept.isEmpty then
          repaired
        else
          repaired ++ [⟨.user, .blocks (otherBlocksOf m ++ kept)⟩]
      else
        repaired
  else
    repaired ++ [m]

/-- Spec-worded repairer: fold of `repairSpecStep` over the raw sequence. -/
def repairSpec (messages : List MessageParam) : List MessageParam :=
  messages.foldl repairSpecStep []

/-! ## Relay server state machine

Embedding of `src/src/server/relay.ts` and the parts of
`src/src/server/database.ts` it calls. -/

/-- A connected client of a session (`ClientInfo` in relay.ts); the live
WebSocket handle is represented by the `clientId` used to address sends. -/
structure ClientInfo where
  clientId : String
  username : String
  connectedAt : Nat
deriving DecidableEq

/-- In-memory session record (`Session` in relay.ts). `clients` models the
insertion-ordered `Map<string, ClientInfo>`. -/
structure Session where
  id : String
  clients : List ClientInfo
  lockHolder : Option String
  lockUsername : Option String
  lockGrantedAt : Option Nat
  lastActivity : Nat
deriving DecidableEq

/-- Row of the `messages` table that is observable through `getMessages`
(random row id and timestamp column omitted, see the header conventions). -/
structure DbMessage where
  sessionId : String
  role : MRole
  content : String
  author : Option String
deriving DecidableEq

/-- Row of the `tool_results` table (random row id and timestamp omitted). -/
structure DbToolResult where
  sessionId : String
  toolUseId : String
  content : String
  clientId : String
deriving DecidableEq

/-- The SQLite database: `sessions`, `messages` and `tool_results` tables,
rows in insertion order. -/
structure Db where
  sessionIds : List String
  messages : List DbMessage
  toolResults : List DbToolResult
deriving DecidableEq

/-- `db.createSession`: `INSERT OR IGNORE INTO sessions`. -/
def dbCreateSession (db : Db) (sid : String) : Db :=
  if db.sessionIds.contains sid then db
  else { db with sessionIds := db.sessionIds ++ [sid] }

/-- The `message.author_username || null` normalization `saveMessage`
applies to the stored row (database.ts line 104): a missing or empty
display name is stored as NULL. -/
def authorOrNull : Option String → Option String
  | some a => if a = "" then none else some a
  | none => none

/-- `db.saveMessage`: `INSERT INTO messages`, storing
`message.author_username || null` in the author column. -/
def dbSaveMessage (db : Db) (m : DbMessage) : Db :=
  { db with messages := db.messages ++ [{ m with author := authorOrNull m.author }] }

/-- `db.saveToolResult`: `INSERT INTO tool_results`. -/
def dbSaveToolResult (db : Db) (r : DbToolResult) : Db :=
  { db with toolResults := db.toolResults ++ [r] }

/-- `db.getMessages`: `SELECT * FROM messages WHERE session_id = ? ORDER BY
timestamp ASC`, i.e. the session's rows in insertion order. -/
def dbGetMessages (db : Db) (sid : String) : List DbMessage :=
  db.messages.filter fun m => m.sessionId == sid

/-- Whole relay state: the global `sessions : Map<string, Session>` plus the
database the handlers write through. -/
structure RelayState where
  sessions : List (String × Session)
  db : Db
deriving DecidableEq

/-- Lookup in the `sessions` map (`sessions.get(sessionId)`). -/
def assocLookup : List (String × Session) → String → Option Session
  | [], _ => none
  | (k, v) :: rest, sid => if k = sid then some v else assocLookup rest sid

/-- Update in the `sessions` map (`sessions.set(sessionId, session)`):
replaces the keyed entry in place, or appends when the key is absent. -/
def assocSet : List (String × Session) → String → Session →
    List (String × Session)
  | [], sid, x => [(sid, x)]
  | (k, v) :: rest, sid, x =>
    if k = sid then (sid, x) :: rest else (k, v) :: assocSet rest sid x

/-- Removal from the `sessions` map (`sessions.delete(sessionId)`). -/
def assocErase : List (String × Session) → String → List (String × Session)
  | [], _ => []
  | (k, v) :: rest, sid =>
    if k = sid then rest else (k, v) :: assocErase rest sid

/-- Lookup in a session's client map (`session.clients.get(clientId)`). -/
def clientFind : List ClientInfo → String → Option ClientInfo
  | [], _ => none
  | c :: rest, cid => if c.clientId = cid then some c else clientFind rest cid

/-- Update of a session's client map (`session.clients.set(cid, info)`). -/
def clientsSet : List ClientInfo → ClientInfo → List ClientInfo
  | [], info => [info]
  | c :: rest, info =>
    if c.clientId = info.clientId then info :: rest else c :: clientsSet rest info

/-- Removal from a session's client map (`session.clients.delete(cid)`). -/
def clientsDelete : List ClientInfo → String → List ClientInfo
  | [], _ => []
  | c :: rest, cid =>
    if c.clientId = cid then rest else c :: clientsDelete rest cid

/-- Messages the relay sends to clients, one constructor per `type` tag. -/
inductive OutMsg
  | errorMsg (message : String)
  | connected (clientId sessionId : String)
  | participantJoined (username clientId : String)
  | participantLeft (username clientId : String)
  | syncState (sessionId : String) (messages : List DbMessage)
      (participants : List (String × String))
      (lockHolder lockUsername : Option String)
  | lockGranted (clientId username : String)
  | lockDenied (holder : Option String) (reason : String)
  | lockReleased (reason : Option String)
  | userMessageBroadcast (username content : String) (timestamp : Nat)
  | assistantStreaming (delta sourceClientId : String)
  | assistantCompleteBroadcast (content : String)
  | toolExecuting (toolUseId toolName input executingClientId : String)
  | toolResultBroadcast (toolUseId content : String) (isError : Bool)
deriving DecidableEq

/-- One observable side effect of a handler, in the order performed:
a database write, a direct `ws.send` to one client, or a `broadcast` whose
target list records the clients it iterates over. -/
inductive Effect
  | persistMessage (m : DbMessage)
  | persistToolResult (r : DbToolResult)
  | send (clientId : String) (msg : OutMsg)
  | broadcast (targets : List String) (msg : OutMsg)
deriving DecidableEq

/-- Recipients of `broadcast(session, message, excludeClientId?)`: every
client of the session whose id differs from the excluded one. (Socket
readiness, a transport concern, is not modelled.) -/
def broadcastTargets (clients : List ClientInfo) (excludeClientId : Option String) :
    List String :=
  (clients.filter fun c => excludeClientId != some c.clientId).map (·.clientId)

/-- Lock idle timeout, `LOCK_TIMEOUT_MS = 30000` (relay.ts line 42). -/
def LOCK_TIMEOUT_MS : Nat := 30000

/-- Period of the lock timeout sweep, `setInterval(..., 5000)` (line 96). -/
def SWEEP_INTERVAL_MS : Nat := 5000

/-- Handler for `client.connect` (relay.ts 166-223): guards against missing
ids, creates the session (in memory and in the database) if absent, registers
the client, confirms to it, and notifies the others. -/
def handleClientConnect (s : RelayState) (now : Nat) (sid cid username : String) :
    RelayState × List Effect :=
  if sid = "" ∨ cid = "" then
    (s, [.send cid (.errorMsg "Missing sessionId or clientId")])
  else
    let uname := if username = "" then "Anonymous" else username
    let found := assocLookup s.sessions sid
    let sess0 : Session :=
      match found with
      | some sess => sess
      | none => ⟨sid, [], none, none, none, now⟩
    let db1 : Db :=
      match found with
      | some _ => s.db
      | none => dbCreateSession s.db sid
    let sess1 := { sess0 with
      clients := clientsSet sess0.clients ⟨cid, uname, now⟩,
      lastActivity := now }
    ({ sessions := assocSet s.sessions sid sess1, db := db1 },
     [.send cid (.connected cid sid),
      .broadcast (broadcastTargets sess1.clients (some cid))
        (.participantJoined uname cid)])

/-- Handler for `sync.request` (relay.ts 225-255): returns the stored
conversation, the roster and the lock state to the requester. -/
def handleSyncRequest (s : RelayState) (sid cid : String) :
    RelayState × List Effect :=
  match assocLookup s.sessions sid with
  | none => (s, [.send cid (.errorMsg "Session not found")])
  | some sess =>
    (s, [.send cid (.syncState sid (dbGetMessages s.db sid)
          (sess.clients.map fun c => (c.clientId, c.username))
          sess.lockHolder sess.lockUsername)])

/-- Handler for `lock.request` (relay.ts 257-287): grants when the lock is
free or already held by the requester, otherwise sends a denial to the
requester only. -/
def handleLockRequest (s : RelayState) (now : Nat) (sid cid username : String) :
    RelayState × List Effect :=
  match assocLookup s.sessions sid with
  | none => (s, [])
  | some sess =>
    if sess.lockHolder = none ∨ sess.lockHolder = some cid then
      let sess' := { sess with
        lockHolder := some cid,
        lockUsername := some username,
        lockGrantedAt := some now,
        lastActivity := now }
      ({ s with sessions := assocSet s.sessions sid sess' },
       [.broadcast (broadcastTargets sess'.clients none)
          (.lockGranted cid username)])
    else
      match clientFind sess.clients cid with
      | some _ =>
        (s, [.send cid (.lockDenied sess.lockUsername "lock_held")])
      | none => (s, [])

/-- Handler for `lock.release` (relay.ts 289-305): only effective when the
sender is the current holder. -/
def handleLockRelease (s : RelayState) (sid cid : String) :
    RelayState × List Effect :=
  match assocLookup s.sessions sid with
  | none => (s, [])
  | some sess =>
    if sess.lockHolder = some cid then
      let sess' := { sess with
        lockHolder := none, lockUsername := none, lockGrantedAt := none }
      ({ s with sessions := assocSet s.sessions sid sess' },
       [.broadcast (broadcastTargets sess'.clients none) (.lockReleased none)])
    else (s, [])

/-- Handler for `user.message` (relay.ts 307-335): requires the sender to be
the lock holder, saves to the database, then broadcasts excluding the sender. -/
def handleUserMessage (s : RelayState) (now : Nat)
    (sid cid username content : String) : RelayState × List Effect :=
  match assocLookup s.sessions sid with
  | none => (s, [])
  | some sess =>
    if sess.lockHolder = some cid then
      let sess' := { sess with lastActivity := now }
      let entry : DbMessage := ⟨sid, .user, content, some username⟩
      ({ sessions := assocSet s.sessions sid sess',
         db := dbSaveMessage s.db entry },
       [.persistMessage entry,
        .broadcast (broadcastTargets sess'.clients (some cid))
          (.userMessageBroadcast username content now)])
    else (s, [])

/-- Handler for `assistant.chunk` (relay.ts 337-355): requires the sender to
be the lock holder; broadcast only, nothing persisted. -/
def handleAssistantChunk (s : RelayState) (now : Nat) (sid cid delta : String) :
    RelayState × List Effect :=
  match assocLookup s.sessions sid with
  | none => (s, [])
  | some sess =>
    if sess.lockHolder = some cid then
      let sess' := { sess with lastActivity := now }
      ({ s with sessions := assocSet s.sessions sid sess' },
       [.broadcast (broadcastTargets sess'.clients (some cid))
          (.assistantStreaming delta cid)])
    else (s, [])

/-- Handler for `assistant.complete` (relay.ts 357-383): requires the sender
to be the lock holder, saves to the database, then broadcasts excluding the
sender. -/
def handleAssistantComplete (s : RelayState) (now : Nat)
    (sid cid content : String) : RelayState × List Effect :=
  match assocLookup s.sessions sid with
  | none => (s, [])
  | some sess =>
    if sess.lockHolder = some cid then
      let sess' := { sess with lastActivity := now }
      let entry : DbMessage := ⟨sid, .assistant, content, none⟩
      ({ sessions := assocSet s.sessions sid sess',
         db := dbSaveMessage s.db entry },
       [.persistMessage entry,
        .broadcast (broadcastTargets sess'.clients (some cid))
          (.assistantCompleteBroadcast content)])
    else (s, [])

/-- Handler for `tool.execute` (relay.ts 385-399): broadcast to all clients,
no lock check and no persistence. -/
def handleToolExecute (s : RelayState)
    (sid cid toolUseId toolName input : String) : RelayState × List Effect :=
  match assocLookup s.sessions sid with
  | none => (s, [])
  | some sess =>
    (s, [.broadcast (broadcastTargets sess.clients none)
          (.toolExecuting toolUseId toolName input cid)])

/-- Handler for `tool.result` (relay.ts 401-417): saves the record, then
broadcasts to all clients; no lock check. -/
def handleToolResult (s : RelayState)
    (sid cid toolUseId content : String) (isError : Bool) :
    RelayState × List Effect :=
  match assocLookup s.sessions sid with
  | none => (s, [])
  | some sess =>
    let rec0 : DbToolResult := ⟨sid, toolUseId, content, cid⟩
    ({ s with db := dbSaveToolResult s.db rec0 },
     [.persistToolResult rec0,
      .broadcast (broadcastTargets sess.clients none)
        (.toolResultBroadcast toolUseId content isError)])

/-- Handler run on socket close (relay.ts 419-455): removes the client, force
releases the lock it held, notifies the rest, and deletes the session from
the registry once empty. -/
def handleClientDisconnect (s : RelayState) (sid cid : String) :
    RelayState × List Effect :=
  match assocLookup s.sessions sid with
  | none => (s, [])
  | some sess =>
    match clientFind sess.clients cid with
    | none => (s, [])
    | some info =>
      let clients' := clientsDelete sess.clients cid
      let sess' : Session :=
        if sess.lockHolder = some cid then
          { sess with
            clients := clients',
            lockHolder := none, lockUsername := none, lockGrantedAt := none }
        else
          { sess with clients := clients' }
      let lockEffs : List Effect :=
        if sess.lockHolder = some cid then
          [.broadcast (broadcastTargets clients' none)
            (.lockReleased (some "holder_disconnected"))]
        else []
      let effs := lockEffs ++
        [.broadcast (broadcastTargets clients' none)
          (.participantLeft info.username cid)]
      if clients'.isEmpty then
        ({ s with sessions := assocErase s.sessions sid }, effs)
      else
        ({ s with sessions := assocSet s.sessions sid sess' }, effs)

/-- One session's share of the periodic lock timeout sweep (relay.ts 79-96):
a held lock granted more than `LOCK_TIMEOUT_MS` ago is cleared and the
release is broadcast with reason `timeout`. The guard
`if (session.lockHolder && session.lockGrantedAt)` is JavaScript truthiness
on a nullable string and a nullable number: besides `null` it also fails
for the empty holder string and the zero grant timestamp, so a lock in such
a state is never swept. -/
def sweepSession (now : Nat) (sess : Session) : Session × List Effect :=
  match sess.lockHolder, sess.lockGrantedAt with
  | some h, some g =>
    if h ≠ "" ∧ g ≠ 0 then
      if LOCK_TIMEOUT_MS < now - g then
        ({ sess with
           lockHolder := none, lockUsername := none, lockGrantedAt := none },
         [.broadcast (broadcastTargets sess.clients none)
            (.lockReleased (some "timeout"))])
      else (sess, [])
    else (sess, [])
  | _, _ => (sess, [])

/-- The whole periodic sweep: `sessions.forEach(...)` applying
`sweepSession` to every session. -/
def sweepStep (s : RelayState) (now : Nat) : RelayState × List Effect :=
  ({ s with
     sessions := s.sessions.map fun p => (p.1, (sweepSession now p.2).1) },
   (s.sessions.map fun p => (sweepSession now p.2).2).flatten)

/-- An incoming client message, one constructor per `msg.type` the relay
dispatches on (relay.ts 107-146). -/
inductive InMsg
  | clientConnect (sessionId clientId username : String)
  | syncRequest (sessionId clientId : String)
  | lockRequest (sessionId clientId username : String)
  | lockRelease (sessionId clientId : String)
  | userMessage (sessionId clientId username content : String)
  | assistantChunk (sessionId clientId delta : String)
  | assistantComplete (sessionId clientId content : String)
  | toolExecute (sessionId clientId toolUseId toolName input : String)
  | toolResult (sessionId clientId toolUseId content : String) (isError : Bool)
deriving DecidableEq

/-- An event processed by the relay: an incoming message, a socket close, or
a firing of the timeout sweep. -/
inductive REvent
  | msg (m : InMsg)
  | disconnect (sessionId clientId : String)
  | sweep
deriving DecidableEq

/-- Top-level dispatch of the relay (message switch plus the close handler
and the sweep timer). -/
def relayStep (s : RelayState) (now : Nat) : REvent → RelayState × List Effect
  | .msg (.clientConnect sid cid u) => handleClientConnect s now sid cid u
  | .msg (.syncRequest sid cid) => handleSyncRequest s sid cid
  | .msg (.lockRequest sid cid u) => handleLockRequest s now sid cid u
  | .msg (.lockRelease sid cid) => handleLockRelease s sid cid
  | .msg (.userMessage sid cid u c) => handleUserMessage s now sid cid u c
  | .msg (.assistantChunk sid cid d) => handleAssistantChunk s now sid cid d
  | .msg (.assistantComplete sid cid c) => handleAssistantComplete s now sid cid c
  | .msg (.toolExecute sid cid tu tn inp) => handleToolExecute s sid cid tu tn inp
  | .msg (.toolResult sid cid tu c e) => handleToolResult s sid cid tu c e
  | .disconnect sid cid => handleClientDisconnect s sid cid
  | .sweep => sweepStep s now

/-! ## Lock invariant material for the mutual-exclusion claim -/

/-- Per-session lock invariant: the holder, when non-null, is a key of the
session's connected-client map. -/
def sessionLockInv (sess : Session) : Bool :=
  match sess.lockHolder with
  | none => true
  | some h => (clientFind sess.clients h).isSome

/-- The per-session lock invariant, over every session of the registry. -/
def stateLockInv (s : RelayState) : Bool :=
  s.sessions.all fun p => sessionLockInv p.2

/-- Guard on events: a `lock.request` names a clientId that is currently a
connected participant of the addressed session (vacuous for other events and
for requests on absent sessions, which the handler ignores). -/
def lockRequestFromMember (s : RelayState) : REvent → Bool
  | .msg (.lockRequest sid cid _) =>
    match assocLookup s.sessions sid with
    | some sess => (clientFind sess.clients cid).isSome
    | none => true
  | _ => true

/-! ## Tool executor path guard (client side)

Embedding of `ToolExecutor.execute` from `src/src/client/tools/executor.ts`,
restricted to invocations whose input carries a `path` (the guard at lines
22-32 plus the tool-name switch). -/

/-- Splits a character stream at `/` into nonempty path components; the first
argument accumulates the current component in reverse. -/
def splitSlashGo : List Char → List Char → List String
  | cur, [] => if cur.isEmpty then [] else [String.mk cur.reverse]
  | cur, c :: rest =>
    if c = '/' then
      if cur.isEmpty then splitSlashGo [] rest
      else String.mk cur.reverse :: splitSlashGo [] rest
    else splitSlashGo (c :: cur) rest

/-- Path string split into its nonempty components. -/
def splitPath (s : String) : List String :=
  splitSlashGo [] s.data

/-- One step of path normalization: `.` is dropped, `..` removes the last
component (staying at the root when there is none), anything else is kept —
the component semantics of Node's `path.resolve` on an absolute base. -/
def normStep (acc : List String) (c : String) : List String :=
  if c = "." then acc
  else if c = ".." then acc.dropLast
  else acc ++ [c]

/-- Normalization of a component sequence rooted at `/`. -/
def normalizeComps (cs : List String) : List String :=
  cs.foldl normStep []

/-- Joins components with `/` separators. -/
def joinComps : List String → String
  | [] => ""
  | [c] => c
  | c :: rest => c ++ "/" ++ joinComps rest

/-- String prefix test, the model of JavaScript `String.startsWith`. -/
def strStartsWith (s p : String) : Bool :=
  p.data.isPrefixOf s.data

/-- Model of `path.resolve(projectRoot, inputPath)` for an absolute
`projectRoot`: an absolute input stands alone, a relative one is appended to
the root, and the concatenation is normalized. -/
def pathResolve (root p : String) : String :=
  if strStartsWith p "/" then
    "/" ++ joinComps (normalizeComps (splitPath p))
  else
    "/" ++ joinComps (normalizeComps (splitPath root ++ splitPath p))

/-- Observable outcome of `ToolExecutor.execute` on a path-carrying input:
the guard rejection (the `Path must be within project root` failure result,
before any filesystem call), a filesystem operation on the resolved full
path, the glob search (driven by `input.pattern`, not by the path), or the
unknown-tool failure result. -/
inductive ExecOutcome
  | pathRejected
  | fsAccess (op fullPath : String)
  | globSearch
  | unknownTool (name : String)
deriving DecidableEq

/-- Directory part of an absolute normalized path, the model of
`path.dirname` on the resolved full paths the executor produces
(`path.dirname('/a/b') = '/a'`, `path.dirname('/a') = '/'`). -/
def pathDirname (p : String) : String :=
  "/" ++ joinComps ((splitPath p).dropLast)

/-- Filesystem paths an outcome touches. A `write_file` access touches two
paths: `writeFile` first calls `fs.mkdir(path.dirname(fullPath),
{recursive: true})` (executor.ts line 111) and then writes `fullPath`; the
other operations touch only the resolved full path. -/
def accessedPaths : ExecOutcome → List String
  | .fsAccess op fp => if op = "write_file" then [pathDirname fp, fp] else [fp]
  | _ => []

/-- Semantic containment in the project root: equal to the root or below it
(root followed by a path separator) — what "stays within the project root
directory" means, as opposed to the string test the code performs. -/
def isWithinRoot (root p : String) : Bool :=
  p == root || strStartsWith p (root ++ "/")

namespace ToolExecutor

/-- The guard and dispatch of `ToolExecutor.execute` (executor.ts 21-56) on
an invocation whose input carries `path`: resolve the path against the
project root, reject unless the resolved string starts with the root, then
dispatch on the tool name (the private helpers re-resolve the same path and
operate on the identical full path). -/
def execute (projectRoot toolName inputPath : String) : ExecOutcome :=
  let fullPath := pathResolve projectRoot inputPath
  if !(strStartsWith fullPath projectRoot) then .pathRejected
  else if toolName = "read_file" then .fsAccess "read_file" fullPath
  else if toolName = "write_file" then .fsAccess "write_file" fullPath
  else if toolName = "list_directory" then .fsAccess "list_directory" fullPath
  else if toolName = "search_files" then .globSearch
  else .unknownTool toolName

end ToolExecutor

/-! ## Concrete sample states used by witnesses and counterexamples -/

/-- Sample connected client `A`. -/
def clientA : ClientInfo := ⟨"A", "alice", 100⟩

/-- Sample connected client `B`. -/
def clientB : ClientInfo := ⟨"B", "bob", 110⟩

/-- An empty database. -/
def emptyDb : Db := ⟨[], [], []⟩

/-- The relay's initial state: no sessions, fresh database. -/
def relayInit : RelayState := ⟨[], emptyDb⟩

/-- Session `S` with clients `A`, `B`, lock held by `A` since time 100. -/
def sessAB : Session := ⟨"S", [clientA, clientB], some "A", some "alice", some 100, 100⟩

/-- Relay state holding only `sessAB`. -/
def stAB : RelayState := ⟨[("S", sessAB)], emptyDb⟩

/-- Session `S` with clients `A`, `B` and an idle lock. -/
def sessABIdle : Session := ⟨"S", [clientA, clientB], none, none, none, 100⟩

/-- Relay state holding only `sessABIdle`. -/
def stABIdle : RelayState := ⟨[("S", sessABIdle)], emptyDb⟩

/-- Session `S` whose only client is `A`, lock idle. -/
def sessOnlyA : Session := ⟨"S", [clientA], none, none, none, 100⟩

/-- Relay state holding only `sessOnlyA`, with one stored message. -/
def stOnlyA : RelayState :=
  ⟨[("S", sessOnlyA)], ⟨["S"], [⟨"S", .user, "hello", some "alice"⟩], []⟩⟩

/-- State after `A` connects to a fresh relay (first step of the lock
invariant counterexample trace). -/
def cexConnected : RelayState :=
  (relayStep relayInit 100 (.msg (.clientConnect "S" "A" "alice"))).1

/-- State after the relay then processes a `lock.request` naming the
unconnected clientId `B`. -/
def cexGranted : RelayState :=
  (relayStep cexConnected 120 (.msg (.lockRequest "S" "B" "bob"))).1

/-- State after the relay instead processes a `lock.request` whose clientId
is the empty string, which `handleLockRequest` accepts (the lock is idle):
the lock is then held by `""`, a value the sweep's truthiness guard treats
as absent. -/
def cexEmptyHolder : RelayState :=
  (relayStep cexConnected 120 (.msg (.lockRequest "S" "" "bob"))).1

/-! ## Theorems -/

/-- The reversed-accumulator loop of `validateToolMessages` computes the fold
of the spec-worded step over the in-order accumulator. -/
theorem vtmGo_eq_foldl (ms : List MessageParam) :
    ∀ acc, vtmGo acc ms = ms.foldl repairSpecStep acc.reverse := by
  induction ms with
  | nil => intro acc; simp [vtmGo]
  | cons m rest ih =>
    intro acc
    obtain ⟨role, content⟩ := m
    cases role with
    | assistant =>
      cases content <;>
        simp [vtmGo, repairSpecStep, toolResultBlocksOf, List.foldl_cons, ih]
    | user =>
      cases content with
      | str s =>
        simp [vtmGo, repairSpecStep, toolResultBlocksOf, List.foldl_cons, ih]
      | blocks bs =>
        by_cases hE : (bs.filter isToolResultBlock).isEmpty
        · simp [vtmGo, hE, repairSpecStep, toolResultBlocksOf,
            List.foldl_cons, ih]
        · match acc with
          | [] =>
            simp [vtmGo, hE, repairSpecStep, toolResultBlocksOf,
              List.foldl_cons, ih]
          | prev :: tl =>
            have hLast : ((prev :: tl).reverse).getLast? = some prev := by
              simp
            by_cases hA : prev.role = MRole.assistant
            · by_cases hV : (validToolResults (toolUseIdsOf prev)
                  (bs.filter isToolResultBlock)).isEmpty
              · simp [vtmGo, hE, hA, hV, repairSpecStep, toolResultBlocksOf,
                  List.foldl_cons, hLast, ih]
              · have hVC : ((bs.filter fun b => !isToolResultBlock b) ++
                    validToolResults (toolUseIdsOf prev)
                      (bs.filter isToolResultBlock)).isEmpty = false := by
                  rcases h : validToolResults (toolUseIdsOf prev)
                      (bs.filter isToolResultBlock) with _ | ⟨a, l⟩
                  · rw [h] at hV; simp at hV
                  · simp [h, List.isEmpty_eq_false, List.append_ne_nil_of_right_ne_nil]
                simp [vtmGo, hE, hA, hV, hVC, repairSpecStep,
                  toolResultBlocksOf, otherBlocksOf, List.foldl_cons,
                  hLast, ih]
            · simp [vtmGo, hE, hA, repairSpecStep, toolResultBlocksOf,
                List.foldl_cons, hLast, ih]

/-- C2: the client-side repairer `validateToolMessages`, applied to any
ordered message sequence, implements exactly the claimed filtering: a user
entry containing tool-result blocks is kept only if the immediately
preceding entry of the repaired sequence is an assistant entry, keeping
exactly the tool-result blocks whose `tool_use_id` occurs among that
assistant entry's `tool_use` ids, passing non-tool-result blocks through,
and dropping the entry when no tool-result survives, while all other
entries pass through (`validateToolMessages = repairSpec`, the transcription
of the claimed algorithm). In particular, an assistant entry with
invocations A, B followed by a user entry with results for A and C yields a
user entry whose only tool-result is A, and one with a result for C only is
dropped entirely. -/
theorem c2_repairer_correct :
    (∀ ms : List MessageParam, validateToolMessages ms = repairSpec ms) ∧
    validateToolMessages
      [⟨.assistant, .blocks [.toolUse "A" "read_file" "x",
          .toolUse "B" "write_file" "y"]⟩,
       ⟨.user, .blocks [.toolResult "A" "ra", .toolResult "C" "rc"]⟩] =
      [⟨.assistant, .blocks [.toolUse "A" "read_file" "x",
          .toolUse "B" "write_file" "y"]⟩,
       ⟨.user, .blocks [.toolResult "A" "ra"]⟩] ∧
    validateToolMessages
      [⟨.assistant, .blocks [.toolUse "A" "read_file" "x",
          .toolUse "B" "write_file" "y"]⟩,
       ⟨.user, .blocks [.toolResult "C" "rc"]⟩] =
      [⟨.assistant, .blocks [.toolUse "A" "read_file" "x",
          .toolUse "B" "write_file" "y"]⟩] := by
  refine ⟨fun ms => ?_, by decide, by decide⟩
  simpa [validateToolMessages, repairSpec] using vtmGo_eq_foldl ms []

/-- Looking up the key just set in the sessions map yields the new value. -/
theorem assocLookup_set_self (l : List (String × Session)) (sid : String)
    (x : Session) : assocLookup (assocSet l sid x) sid = some x := by
  induction l with
  | nil => simp [assocSet, assocLookup]
  | cons p rest ih =>
    obtain ⟨k, v⟩ := p
    by_cases h : k = sid
    · simp [assocSet, h, assocLookup]
    · simp [assocSet, h, assocLookup, ih]

/-- Setting one key leaves lookups of other keys unchanged. -/
theorem assocLookup_set_ne (l : List (String × Session)) (sid sid' : String)
    (x : Session) (h : sid' ≠ sid) :
    assocLookup (assocSet l sid x) sid' = assocLookup l sid' := by
  have h' : ¬sid = sid' := fun hh => h hh.symm
  induction l with
  | nil => simp [assocSet, assocLookup, h']
  | cons p rest ih =>
    obtain ⟨k, v⟩ := p
    by_cases hk : k = sid
    · subst hk
      simp [assocSet, assocLookup, h']
    · simp [assocSet, assocLookup, hk, ih]

/-- Lookup misses keys that are not in the map. -/
theorem assocLookup_eq_none (l : List (String × Session)) (sid : String)
    (h : sid ∉ l.map Prod.fst) : assocLookup l sid = none := by
  induction l with
  | nil => simp [assocLookup]
  | cons p rest ih =>
    obtain ⟨k, v⟩ := p
    simp only [List.map_cons, List.mem_cons] at h
    push_neg at h
    simp [assocLookup, Ne.symm h.1, ih h.2]

/-- With unique keys, erasing a key makes its lookup miss. -/
theorem assocLookup_erase_self (l : List (String × Session)) (sid : String)
    (h : (l.map Prod.fst).Nodup) :
    assocLookup (assocErase l sid) sid = none := by
  induction l with
  | nil => simp [assocErase, assocLookup]
  | cons p rest ih =>
    obtain ⟨k, v⟩ := p
    simp only [List.map_cons, List.nodup_cons] at h
    by_cases hk : k = sid
    · subst hk
      simp [assocErase, assocLookup_eq_none rest k h.1]
    · simp [assocErase, assocLookup, hk, ih h.2]

/-- Every entry of an updated map is an old entry or the new binding. -/
theorem mem_assocSet (l : List (String × Session)) (sid : String) (x : Session)
    (p : String × Session) (h : p ∈ assocSet l sid x) :
    p ∈ l ∨ p = (sid, x) := by
  induction l with
  | nil =>
    simp only [assocSet, List.mem_singleton] at h
    exact Or.inr h
  | cons q rest ih =>
    obtain ⟨k, v⟩ := q
    by_cases hk : k = sid
    · simp only [assocSet, hk, if_pos rfl] at h
      rcases List.mem_cons.mp h with h1 | h1
      · exact Or.inr h1
      · exact Or.inl (List.mem_cons_of_mem _ h1)
    · simp only [assocSet, if_neg hk] at h
      rcases List.mem_cons.mp h with h1 | h1
      · exact Or.inl (by rw [h1]; exact List.mem_cons_self _ _)
      · rcases ih h1 with h2 | h2
        · exact Or.inl (List.mem_cons_of_mem _ h2)
        · exact Or.inr h2

/-- Every entry surviving an erase was an entry before. -/
theorem mem_assocErase (l : List (String × Session)) (sid : String)
    (p : String × Session) (h : p ∈ assocErase l sid) : p ∈ l := by
  induction l with
  | nil => simp [assocErase] at h
  | cons q rest ih =>
    obtain ⟨k, v⟩ := q
    by_cases hk : k = sid
    · simp only [assocErase, if_pos hk] at h
      exact List.mem_cons_of_mem _ h
    · simp only [assocErase, if_neg hk] at h
      rcases List.mem_cons.mp h with h1 | h1
      · rw [h1]; exact List.mem_cons_self _ _
      · exact List.mem_cons_of_mem _ (ih h1)

/-- A successful lookup is a membership. -/
theorem assocLookup_mem (l : List (String × Session)) (sid : String)
    (v : Session) (h : assocLookup l sid = some v) : (sid, v) ∈ l := by
  induction l with
  | nil => simp [assocLookup] at h
  | cons q rest ih =>
    obtain ⟨k, w⟩ := q
    by_cases hk : k = sid
    · subst hk
      simp [assocLookup] at h
      rw [← h]
      exact List.mem_cons_self _ _
    · simp only [assocLookup, if_neg hk] at h
      exact List.mem_cons_of_mem _ (ih h)

/-- Lookup on an entrywise-mapped sessions map. -/
theorem assocLookup_map (l : List (String × Session)) (f : Session → Session)
    (sid : String) :
    assocLookup (l.map fun p => (p.1, f p.2)) sid =
      (assocLookup l sid).map f := by
  induction l with
  | nil => simp [assocLookup]
  | cons q rest ih =>
    obtain ⟨k, v⟩ := q
    by_cases hk : k = sid <;> simp [assocLookup, hk, ih]

/-- Lookup after a client-map update: the set key maps to the new record,
other keys are unaffected. -/
theorem clientFind_set (cl : List ClientInfo) (c : ClientInfo) (h : String) :
    clientFind (clientsSet cl c) h =
      if h = c.clientId then some c else clientFind cl h := by
  induction cl with
  | nil =>
    by_cases hc : h = c.clientId <;>
      simp [clientsSet, clientFind, hc, eq_comm]
  | cons d rest ih =>
    by_cases hd : d.clientId = c.clientId
    · by_cases hc : h = c.clientId
      · simp [clientsSet, hd, clientFind, hc]
      · have : d.clientId ≠ h := by rw [hd]; exact fun hh => hc hh.symm
        simp [clientsSet, hd, clientFind, hc, this, eq_comm]
    · by_cases hdh : d.clientId = h
      · have : ¬h = c.clientId := by rw [← hdh]; exact fun hh => hd hh
        simp [clientsSet, hd, clientFind, hdh, this]
      · simp [clientsSet, hd, clientFind, hdh, ih]

/-- Deleting one client leaves lookups of other clients unchanged. -/
theorem clientFind_delete_ne (cl : List ClientInfo) (cid h : String)
    (hne : h ≠ cid) :
    clientFind (clientsDelete cl cid) h = clientFind cl h := by
  have hcidh : ¬cid = h := fun hh => hne hh.symm
  induction cl with
  | nil => simp [clientsDelete, clientFind]
  | cons c rest ih =>
    by_cases hc : c.clientId = cid
    · simp [clientsDelete, hc, clientFind, hcidh]
    · simp [clientsDelete, hc, clientFind, ih]

/-- A broadcast without exclusion targets every client of the session. -/
theorem broadcastTargets_none (cl : List ClientInfo) :
    broadcastTargets cl none = cl.map (·.clientId) := by
  induction cl with
  | nil => simp [broadcastTargets]
  | cons c rest ih =>
    simpa [broadcastTargets] using congrArg (c.clientId :: ·) ih

/-- A successful client lookup returns a member carrying the looked-up id. -/
theorem clientFind_eq_some (cl : List ClientInfo) (cid : String)
    (info : ClientInfo) (h : clientFind cl cid = some info) :
    info ∈ cl ∧ info.clientId = cid := by
  induction cl with
  | nil => simp [clientFind] at h
  | cons c rest ih =>
    by_cases hc : c.clientId = cid
    · simp only [clientFind, if_pos hc, Option.some.injEq] at h
      exact ⟨h ▸ List.mem_cons_self _ _, h ▸ hc⟩
    · simp only [clientFind, if_neg hc] at h
      exact ⟨List.mem_cons_of_mem _ (ih h).1, (ih h).2⟩

/-- C4: a `user.message`, `assistant.chunk` or `assistant.complete` whose
sender is not the session's current lock holder is dropped silently: the
handler returns the state unchanged (no log append, no lock or roster
change) and produces no effect at all — no broadcast and no error reply. -/
theorem c4_nonholder_messages_dropped
    (s : RelayState) (now : Nat) (sid cid : String) (sess : Session)
    (hs : assocLookup s.sessions sid = some sess)
    (hh : sess.lockHolder ≠ some cid) :
    (∀ u c, handleUserMessage s now sid cid u c = (s, [])) ∧
    (∀ d, handleAssistantChunk s now sid cid d = (s, [])) ∧
    (∀ c, handleAssistantComplete s now sid cid c = (s, [])) := by
  refine ⟨fun u c => ?_, fun d => ?_, fun c => ?_⟩ <;>
    simp [handleUserMessage, handleAssistantChunk, handleAssistantComplete,
      hs, hh]

/-- Witness for C4: in a session whose lock `A` holds, a user message from
the connected non-holder `B` leaves the state untouched and emits nothing. -/
theorem c4_nonholder_messages_dropped_witness :
    handleUserMessage stAB 200 "S" "B" "bob" "hi" = (stAB, []) :=
  (c4_nonholder_messages_dropped stAB 200 "S" "B" sessAB (by decide)
    (by decide)).1 "bob" "hi"

/-- C5: a `lock.request` on an existing session from a connected participant
is granted — holder, holder name and a fresh grant timestamp recorded, and
`lock.granted` broadcast to every participant of the session, the requester
included — exactly when the lock is idle or already held by the requester;
otherwise the state is unchanged and only the requester receives a
`lock.denied` carrying the current holder's display name. -/
theorem c5_lock_request_behavior
    (s : RelayState) (now : Nat) (sid cid u : String) (sess : Session)
    (hs : assocLookup s.sessions sid = some sess)
    (hm : (clientFind sess.clients cid).isSome) :
    (sess.lockHolder = none ∨ sess.lockHolder = some cid →
      handleLockRequest s now sid cid u =
        ({ s with
            sessions :=
              assocSet s.sessions sid
                ({ sess with
                    lockHolder := some cid, lockUsername := some u,
                    lockGrantedAt := some now, lastActivity := now }) },
         [.broadcast (broadcastTargets sess.clients none)
            (.lockGranted cid u)]) ∧
      cid ∈ broadcastTargets sess.clients none) ∧
    (¬(sess.lockHolder = none ∨ sess.lockHolder = some cid) →
      handleLockRequest s now sid cid u =
        (s, [.send cid (.lockDenied sess.lockUsername "lock_held")])) := by
  constructor
  · intro hAvail
    constructor
    · simp [handleLockRequest, hs, hAvail]
    · obtain ⟨info, hinfo⟩ := Option.isSome_iff_exists.mp hm
      obtain ⟨hmem, hid⟩ := clientFind_eq_some sess.clients cid info hinfo
      rw [broadcastTargets_none]
      exact List.mem_map.mpr ⟨info, hmem, hid⟩
  · intro hHeld
    obtain ⟨info, hinfo⟩ := Option.isSome_iff_exists.mp hm
    simp [handleLockRequest, hs, hHeld, hinfo]

/-- Witness for C5: on the idle-lock session, connected participant `B` is
granted the lock with grant time 200 and everyone (including `B`) is
notified. -/
theorem c5_lock_request_behavior_witness :
    handleLockRequest stABIdle 200 "S" "B" "bob" =
      ({ stABIdle with
          sessions :=
            assocSet stABIdle.sessions "S"
              ({ sessABIdle with
                  lockHolder := some "B", lockUsername := some "bob",
                  lockGrantedAt := some 200, lastActivity := 200 }) },
       [.broadcast (broadcastTargets sessABIdle.clients none)
          (.lockGranted "B" "bob")]) ∧
    "B" ∈ broadcastTargets sessABIdle.clients none :=
  (c5_lock_request_behavior stABIdle 200 "S" "B" "bob" sessABIdle (by decide)
    (by decide)).1 (by decide)

/-- Creating a session row never touches the messages table. -/
theorem dbCreateSession_messages (db : Db) (sid : String) :
    (dbCreateSession db sid).messages = db.messages := by
  unfold dbCreateSession
  split <;> rfl

/-- C7: when the participant currently holding a session's lock disconnects,
the same handler step clears the lock (holder, holder name and grant time all
null, with no condition on elapsed time) and broadcasts `lock.released` with
reason `holder_disconnected` to exactly the remaining participants, followed
by the `participant.left` notification; when participants remain, the stored
session is the lock-idle one, and when none remain, the session itself is
removed from the registry (under the key uniqueness the `Map` guarantees),
so in every case no remaining participant can observe a held lock. -/
theorem c7_holder_disconnect_release
    (s : RelayState) (sid cid : String) (sess : Session) (info : ClientInfo)
    (hs : assocLookup s.sessions sid = some sess)
    (hc : clientFind sess.clients cid = some info)
    (hh : sess.lockHolder = some cid) :
    (handleClientDisconnect s sid cid).2 =
      [.broadcast (broadcastTargets (clientsDelete sess.clients cid) none)
         (.lockReleased (some "holder_disconnected")),
       .broadcast (broadcastTargets (clientsDelete sess.clients cid) none)
         (.participantLeft info.username cid)] ∧
    (¬(clientsDelete sess.clients cid).isEmpty →
      assocLookup (handleClientDisconnect s sid cid).1.sessions sid =
        some ({ sess with
                clients := clientsDelete sess.clients cid,
                lockHolder := none, lockUsername := none,
                lockGrantedAt := none })) ∧
    ((clientsDelete sess.clients cid).isEmpty →
      (s.sessions.map Prod.fst).Nodup →
      assocLookup (handleClientDisconnect s sid cid).1.sessions sid =
        none) := by
  refine ⟨?_, fun he => ?_, fun he hnd => ?_⟩
  · by_cases he : (clientsDelete sess.clients cid).isEmpty <;>
      simp [handleClientDisconnect, hs, hc, hh, he]
  · simp [handleClientDisconnect, hs, hc, hh, he, assocLookup_set_self]
  · have hstep : (handleClientDisconnect s sid cid).1 =
        { s with sessions := assocErase s.sessions sid } := by
      simp [handleClientDisconnect, hs, hc, hh, he]
    rw [hstep]
    exact assocLookup_erase_self s.sessions sid hnd

/-- Witness for C7: `A` holds the lock of session `S` with clients `A`, `B`;
its disconnect broadcasts the forced release (then the departure) to `B` and
leaves the stored session lock-idle. -/
theorem c7_holder_disconnect_release_witness :
    (handleClientDisconnect stAB "S" "A").2 =
      [.broadcast (broadcastTargets (clientsDelete sessAB.clients "A") none)
         (.lockReleased (some "holder_disconnected")),
       .broadcast (broadcastTargets (clientsDelete sessAB.clients "A") none)
         (.participantLeft clientA.username "A")] ∧
    assocLookup (handleClientDisconnect stAB "S" "A").1.sessions "S" =
      some ({ sessAB with
              clients := clientsDelete sessAB.clients "A",
              lockHolder := none, lockUsername := none,
              lockGrantedAt := none }) :=
  ⟨(c7_holder_disconnect_release stAB "S" "A" sessAB clientA (by decide)
      (by decide) (by decide)).1,
   (c7_holder_disconnect_release stAB "S" "A" sessAB clientA (by decide)
      (by decide) (by decide)).2.1 (by decide)⟩

/-- C8: disconnecting a participant that is absent (or whose session is
absent) is a silent no-op; and when the last participant leaves, the session
is deleted from the in-memory registry while the database is untouched, so
a later reconnect recreates the session and a sync returns the full prior
message history for that session id. -/
theorem c8_disconnect_idempotent_and_log_retained
    (s : RelayState) (sid cid : String) :
    (assocLookup s.sessions sid = none →
      handleClientDisconnect s sid cid = (s, [])) ∧
    (∀ sess, assocLookup s.sessions sid = some sess →
      clientFind sess.clients cid = none →
      handleClientDisconnect s sid cid = (s, [])) ∧
    (∀ sess info, (s.sessions.map Prod.fst).Nodup →
      assocLookup s.sessions sid = some sess →
      sess.clients = [info] → info.clientId = cid →
      assocLookup (handleClientDisconnect s sid cid).1.sessions sid = none ∧
      (handleClientDisconnect s sid cid).1.db = s.db ∧
      (∀ now' cid' u' q, sid ≠ "" → cid' ≠ "" →
        (assocLookup
          (handleClientConnect (handleClientDisconnect s sid cid).1
            now' sid cid' u').1.sessions sid).isSome ∧
        dbGetMessages
          (handleClientConnect (handleClientDisconnect s sid cid).1
            now' sid cid' u').1.db sid = dbGetMessages s.db sid ∧
        (handleSyncRequest
          (handleClientConnect (handleClientDisconnect s sid cid).1
            now' sid cid' u').1 sid q).2 =
          [.send q (.syncState sid (dbGetMessages s.db sid)
            [(cid', if u' = "" then "Anonymous" else u')] none none)])) := by
  refine ⟨fun h => ?_, fun sess h hc => ?_, fun sess info hnd h hcl hid => ?_⟩
  · simp [handleClientDisconnect, h]
  · simp [handleClientDisconnect, h, hc]
  · have hfind : clientFind sess.clients cid = some info := by
      rw [hcl]; simp [clientFind, hid]
    have hdel : clientsDelete sess.clients cid = [] := by
      rw [hcl]; simp [clientsDelete, hid]
    have hpost : (handleClientDisconnect s sid cid).1 =
        { s with sessions := assocErase s.sessions sid } := by
      simp [handleClientDisconnect, h, hfind, hdel]
    have hnone : assocLookup (handleClientDisconnect s sid cid).1.sessions sid
        = none := by
      rw [hpost]; exact assocLookup_erase_self s.sessions sid hnd
    refine ⟨hnone, by rw [hpost], fun now' cid' u' q hsid hcid => ?_⟩
    have hguard : ¬(sid = "" ∨ cid' = "") := by simp [hsid, hcid]
    have hcc : (handleClientConnect (handleClientDisconnect s sid cid).1
        now' sid cid' u').1 =
        { sessions := assocSet (handleClientDisconnect s sid cid).1.sessions
            sid ({ id := sid,
                   clients := [⟨cid', if u' = "" then "Anonymous" else u',
                     now'⟩],
                   lockHolder := none, lockUsername := none,
                   lockGrantedAt := none, lastActivity := now' }),
          db := dbCreateSession (handleClientDisconnect s sid cid).1.db sid }
        := by
      simp [handleClientConnect, hguard, hnone, clientsSet]
    have hmsg : (handleClientConnect (handleClientDisconnect s sid cid).1
        now' sid cid' u').1.db.messages = s.db.messages := by
      rw [hcc]
      show (dbCreateSession (handleClientDisconnect s sid cid).1.db
        sid).messages = s.db.messages
      rw [dbCreateSession_messages, hpost]
    have hlook2 : assocLookup (handleClientConnect
        (handleClientDisconnect s sid cid).1 now' sid cid' u').1.sessions sid
        = some (⟨sid, [⟨cid', if u' = "" then "Anonymous" else u', now'⟩],
            none, none, none, now'⟩ : Session) := by
      rw [hcc]
      exact assocLookup_set_self _ _ _
    refine ⟨by rw [hlook2]; rfl, ?_, ?_⟩
    · simp [dbGetMessages, hmsg]
    · simp [handleSyncRequest, hlook2, dbGetMessages, hmsg]

/-- Witness for C8: on the one-participant session holding one logged
message, disconnecting `A` removes the session, keeps the database, and a
reconnect of `C` followed by a sync returns the prior history. -/
theorem c8_disconnect_idempotent_and_log_retained_witness :
    assocLookup (handleClientDisconnect stOnlyA "S" "A").1.sessions "S" =
      none ∧
    (handleClientDisconnect stOnlyA "S" "A").1.db = stOnlyA.db ∧
    (assocLookup
      (handleClientConnect (handleClientDisconnect stOnlyA "S" "A").1
        300 "S" "C" "carol").1.sessions "S").isSome ∧
    dbGetMessages
      (handleClientConnect (handleClientDisconnect stOnlyA "S" "A").1
        300 "S" "C" "carol").1.db "S" = dbGetMessages stOnlyA.db "S" ∧
    (handleSyncRequest
      (handleClientConnect (handleClientDisconnect stOnlyA "S" "A").1
        300 "S" "C" "carol").1 "S" "C").2 =
      [.send "C" (.syncState "S" (dbGetMessages stOnlyA.db "S")
        [("C", if "carol" = "" then "Anonymous" else "carol")] none none)] := by
  obtain ⟨h1, h2, h3⟩ :=
    (c8_disconnect_idempotent_and_log_retained stOnlyA "S" "A").2.2
      sessOnlyA clientA (by decide) (by decide) (by decide) (by decide)
  obtain ⟨h4, h5, h6⟩ := h3 300 "C" "carol" "C" (by decide) (by decide)
  exact ⟨h1, h2, h4, h5, h6⟩

/-- C10: a `tool.result` on an existing session is persisted to the durable
store and broadcast to every connected participant with no lock-holder
check (no hypothesis about `lockHolder` is needed, unlike C4's handlers),
and likewise `tool.execute` broadcasts unconditionally; in particular a
non-holder's record lands in the durable store. -/
theorem c10_tool_result_no_lock_check
    (s : RelayState) (sid cid tu c tn inp : String) (e : Bool) (sess : Session)
    (hs : assocLookup s.sessions sid = some sess) :
    handleToolResult s sid cid tu c e =
      ({ s with db := dbSaveToolResult s.db ⟨sid, tu, c, cid⟩ },
       [.persistToolResult ⟨sid, tu, c, cid⟩,
        .broadcast (broadcastTargets sess.clients none)
          (.toolResultBroadcast tu c e)]) ∧
    (⟨sid, tu, c, cid⟩ : DbToolResult) ∈
      (handleToolResult s sid cid tu c e).1.db.toolResults ∧
    handleToolExecute s sid cid tu tn inp =
      (s, [.broadcast (broadcastTargets sess.clients none)
            (.toolExecuting tu tn inp cid)]) := by
  refine ⟨?_, ?_, ?_⟩
  · simp [handleToolResult, hs]
  · simp [handleToolResult, hs, dbSaveToolResult]
  · simp [handleToolExecute, hs]

/-- Witness for C10: `B` is not the holder of `S` (the holder is `A`), yet
its tool result is appended to the durable store. -/
theorem c10_tool_result_no_lock_check_witness :
    sessAB.lockHolder ≠ some "B" ∧
    (⟨"S", "t1", "out", "B"⟩ : DbToolResult) ∈
      (handleToolResult stAB "S" "B" "t1" "out" false).1.db.toolResults :=
  ⟨by decide,
   (c10_tool_result_no_lock_check stAB "S" "B" "t1" "out" "tool" "inp" false
     sessAB (by decide)).2.1⟩

/-- Counterexample to C6 as stated: `handleLockRequest` accepts a
`lock.request` whose clientId is the empty string (the lock is idle, so the
`=== null` test grants), leaving session `S` with the non-null holder `""`
granted at time 120; at time 50000 — far beyond the 30-second timeout — the
sweep changes nothing and broadcasts nothing, because the code's guard
`session.lockHolder && session.lockGrantedAt` is falsy for the empty
string. The held lock is never swept, refuting "transitions every Held lock
whose grant timestamp is more than the fixed 30-second idle timeout in the
past back to Idle". -/
theorem c6_counterexample :
    assocLookup cexEmptyHolder.sessions "S" =
      some (⟨"S", [⟨"A", "alice", 100⟩], some "", some "bob", some 120,
        120⟩ : Session) ∧
    LOCK_TIMEOUT_MS < 50000 - 120 ∧
    sweepStep cexEmptyHolder 50000 = (cexEmptyHolder, []) := by decide

/-- C6 amended: the periodic sweep (scheduled every
`SWEEP_INTERVAL_MS = 5000` milliseconds) returns every held lock whose
holder id and grant timestamp are truthy (non-empty holder string, non-zero
grant time — the guard on relay.ts line 82) and whose grant timestamp lies
more than `LOCK_TIMEOUT_MS = 30000` milliseconds in the past to idle —
holder, holder name and grant time all cleared — and broadcasts
`lock.released` with reason `timeout` to all participants of that session;
a truthy held lock no older than the timeout, and any lock whose holder is
the empty string or whose grant time is zero, is left unchanged by the
sweep. -/
theorem c6_sweep_timeout
    (s : RelayState) (now : Nat) (sid : String) (sess : Session)
    (h : String) (g : Nat)
    (hs : assocLookup s.sessions sid = some sess)
    (hh : sess.lockHolder = some h)
    (hg : sess.lockGrantedAt = some g) :
    (h ≠ "" → g ≠ 0 → LOCK_TIMEOUT_MS < now - g →
      assocLookup (sweepStep s now).1.sessions sid =
        some ({ sess with
                lockHolder := none, lockUsername := none,
                lockGrantedAt := none }) ∧
      Effect.broadcast (broadcastTargets sess.clients none)
        (.lockReleased (some "timeout")) ∈ (sweepStep s now).2) ∧
    (h ≠ "" → g ≠ 0 → now - g ≤ LOCK_TIMEOUT_MS →
      assocLookup (sweepStep s now).1.sessions sid = some sess) ∧
    (h = "" ∨ g = 0 →
      assocLookup (sweepStep s now).1.sessions sid = some sess) ∧
    LOCK_TIMEOUT_MS = 30000 ∧ SWEEP_INTERVAL_MS = 5000 := by
  have hmap : assocLookup (sweepStep s now).1.sessions sid =
      (assocLookup s.sessions sid).map (fun x => (sweepSession now x).1) := by
    simp only [sweepStep]
    exact assocLookup_map s.sessions (fun x => (sweepSession now x).1) sid
  refine ⟨fun hhs hgz hstale => ⟨?_, ?_⟩, fun hhs hgz hfresh => ?_,
    fun hfalsy => ?_, rfl, rfl⟩
  · rw [hmap, hs]
    simp [sweepSession, hh, hg, hhs, hgz, hstale]
  · have hmem : (sid, sess) ∈ s.sessions := assocLookup_mem _ _ _ hs
    have hsw : (sweepSession now sess).2 =
        [Effect.broadcast (broadcastTargets sess.clients none)
          (.lockReleased (some "timeout"))] := by
      simp [sweepSession, hh, hg, hhs, hgz, hstale]
    simp only [sweepStep]
    rw [List.mem_flatten]
    refine ⟨(sweepSession now sess).2, ?_, ?_⟩
    · exact List.mem_map.mpr ⟨(sid, sess), hmem, rfl⟩
    · rw [hsw]; exact List.mem_singleton.mpr rfl
  · rw [hmap, hs]
    simp [sweepSession, hh, hg, hhs, hgz, Nat.not_lt.mpr hfresh]
  · rw [hmap, hs]
    rcases hfalsy with hhs | hgz
    · simp [sweepSession, hh, hg, hhs]
    · simp [sweepSession, hh, hg, hgz]

/-- Witness for C6 (amended): with the lock of `S` granted to `A` (a truthy
holder) at time 100, the sweep at time 40000 (39900 ms later) idles the
lock and notifies all of `S`'s participants with reason `timeout`; the
constants are 30000 and 5000 ms. -/
theorem c6_sweep_timeout_witness :
    assocLookup (sweepStep stAB 40000).1.sessions "S" =
      some ({ sessAB with
              lockHolder := none, lockUsername := none,
              lockGrantedAt := none }) ∧
    Effect.broadcast (broadcastTargets sessAB.clients none)
      (.lockReleased (some "timeout")) ∈ (sweepStep stAB 40000).2 ∧
    LOCK_TIMEOUT_MS = 30000 ∧ SWEEP_INTERVAL_MS = 5000 := by
  obtain ⟨h1, _, _, h3, h4⟩ := c6_sweep_timeout stAB 40000 "S" sessAB "A" 100
    (by decide) (by decide) (by decide)
  obtain ⟨ha, hb⟩ := h1 (by decide) (by decide) (by decide)
  exact ⟨ha, hb, h3, h4⟩

/-- Counterexample to C3 as stated: on session `S` (clients `A`, `B`, lock
held by `A`, empty database), a `tool.result` from `A` is persisted (to the
`tool_results` table) and broadcast, but a sync performed on the resulting
state returns an empty message log — `sync.state` carries only the
`messages` table, so the log it returns does not contain the tool-result
entry whose broadcast was just received. -/
theorem c3_counterexample :
    (handleToolResult stAB "S" "A" "t1" "out" false).2 =
      [.persistToolResult ⟨"S", "t1", "out", "A"⟩,
       .broadcast (broadcastTargets sessAB.clients none)
         (.toolResultBroadcast "t1" "out" false)] ∧
    (⟨"S", "t1", "out", "A"⟩ : DbToolResult) ∈
      (handleToolResult stAB "S" "A" "t1" "out" false).1.db.toolResults ∧
    (handleSyncRequest (handleToolResult stAB "S" "A" "t1" "out" false).1
      "S" "A").2 =
      [.send "A" (.syncState "S" [] [("A", "alice"), ("B", "bob")]
        (some "A") (some "alice"))] := by decide

/-- C3 amended: every durable event on an existing session is written to the
durable store strictly before the corresponding broadcast (the handler's
effect trace is exactly persistence followed by broadcast). For
`user.message` and `assistant.complete` (accepted from the lock holder) the
persisted entry is in the message log a subsequent sync returns; for
`tool.result` the record lands in the `tool_results` table, and the message
log returned by sync is unchanged — the tool-result entry is not visible
through sync. -/
theorem c3_amended_persist_before_broadcast
    (s : RelayState) (now : Nat) (sid cid u c tu : String) (e : Bool)
    (sess : Session)
    (hs : assocLookup s.sessions sid = some sess) :
    (sess.lockHolder = some cid →
      (handleUserMessage s now sid cid u c).2 =
        [.persistMessage ⟨sid, .user, c, some u⟩,
         .broadcast (broadcastTargets sess.clients (some cid))
           (.userMessageBroadcast u c now)] ∧
      (⟨sid, .user, c, authorOrNull (some u)⟩ : DbMessage) ∈
        dbGetMessages (handleUserMessage s now sid cid u c).1.db sid) ∧
    (sess.lockHolder = some cid →
      (handleAssistantComplete s now sid cid c).2 =
        [.persistMessage ⟨sid, .assistant, c, none⟩,
         .broadcast (broadcastTargets sess.clients (some cid))
           (.assistantCompleteBroadcast c)] ∧
      (⟨sid, .assistant, c, none⟩ : DbMessage) ∈
        dbGetMessages (handleAssistantComplete s now sid cid c).1.db sid) ∧
    ((handleToolResult s sid cid tu c e).2 =
      [.persistToolResult ⟨sid, tu, c, cid⟩,
       .broadcast (broadcastTargets sess.clients none)
         (.toolResultBroadcast tu c e)] ∧
     (⟨sid, tu, c, cid⟩ : DbToolResult) ∈
       (handleToolResult s sid cid tu c e).1.db.toolResults ∧
     dbGetMessages (handleToolResult s sid cid tu c e).1.db sid =
       dbGetMessages s.db sid) := by
  refine ⟨fun hh => ⟨?_, ?_⟩, fun hh => ⟨?_, ?_⟩, ?_, ?_, ?_⟩
  · simp [handleUserMessage, hs, hh]
  · simp [handleUserMessage, hs, hh, dbSaveMessage, dbGetMessages,
      List.filter_append]
  · simp [handleAssistantComplete, hs, hh]
  · simp [handleAssistantComplete, hs, hh, dbSaveMessage, authorOrNull,
      dbGetMessages, List.filter_append]
  · simp [handleToolResult, hs]
  · simp [handleToolResult, hs, dbSaveToolResult]
  · simp [handleToolResult, hs, dbSaveToolResult, dbGetMessages]

/-- Witness for C3 (amended): lock holder `A`'s user message on session `S`
is persisted before the broadcast and visible in the synced log. -/
theorem c3_amended_persist_before_broadcast_witness :
    (handleUserMessage stAB 200 "S" "A" "alice" "hi").2 =
      [.persistMessage ⟨"S", .user, "hi", some "alice"⟩,
       .broadcast (broadcastTargets sessAB.clients (some "A"))
         (.userMessageBroadcast "alice" "hi" 200)] ∧
    (⟨"S", .user, "hi", authorOrNull (some "alice")⟩ : DbMessage) ∈
      dbGetMessages (handleUserMessage stAB 200 "S" "A" "alice" "hi").1.db
        "S" :=
  (c3_amended_persist_before_broadcast stAB 200 "S" "A" "alice" "hi" "t"
    false sessAB (by decide)).1 (by decide)

/-- The per-session invariant can be read off a successful lookup. -/
theorem sessionLockInv_of_lookup (s : RelayState) (sid : String)
    (sess : Session) (hinv : stateLockInv s = true)
    (hs : assocLookup s.sessions sid = some sess) :
    sessionLockInv sess = true := by
  have hmem := assocLookup_mem _ _ _ hs
  exact List.all_eq_true.mp hinv (sid, sess) hmem

/-- Updating a session that satisfies the invariant preserves it map-wide. -/
theorem all_inv_set (l : List (String × Session)) (sid : String) (x : Session)
    (hl : l.all (fun p => sessionLockInv p.2) = true)
    (hx : sessionLockInv x = true) :
    (assocSet l sid x).all (fun p => sessionLockInv p.2) = true := by
  rw [List.all_eq_true] at hl ⊢
  intro p hp
  rcases mem_assocSet l sid x p hp with h1 | h1
  · exact hl p h1
  · rw [h1]; exact hx

/-- Deleting a session preserves the invariant map-wide. -/
theorem all_inv_erase (l : List (String × Session)) (sid : String)
    (hl : l.all (fun p => sessionLockInv p.2) = true) :
    (assocErase l sid).all (fun p => sessionLockInv p.2) = true := by
  rw [List.all_eq_true] at hl ⊢
  intro p hp
  exact hl p (mem_assocErase l sid p hp)

/-- Only the holder and roster fields matter to the per-session invariant. -/
theorem sessionLockInv_congr (a b : Session)
    (hh : a.lockHolder = b.lockHolder) (hc : a.clients = b.clients) :
    sessionLockInv a = sessionLockInv b := by
  unfold sessionLockInv
  rw [hh, hc]

/-- `client.connect` preserves the lock invariant: it never touches the
holder, and the roster only grows. -/
theorem lockInv_connect (s : RelayState) (now : Nat) (sid cid u : String)
    (hinv : stateLockInv s = true) :
    stateLockInv (handleClientConnect s now sid cid u).1 = true := by
  by_cases hguard : sid = "" ∨ cid = ""
  · simpa [handleClientConnect, hguard] using hinv
  · rcases hfound : assocLookup s.sessions sid with _ | sess
    · simp only [handleClientConnect, hguard, if_neg, hfound, stateLockInv]
      exact all_inv_set _ _ _ hinv (by simp [sessionLockInv])
    · have hsess := sessionLockInv_of_lookup s sid sess hinv hfound
      obtain ⟨sid0, cls, holder, lun, lga, la⟩ := sess
      simp only [handleClientConnect, hguard, if_neg, hfound, stateLockInv]
      refine all_inv_set _ _ _ hinv ?_
      cases holder with
      | none => rfl
      | some h =>
        show (clientFind (clientsSet cls
          ⟨cid, if u = "" then "Anonymous" else u, now⟩) h).isSome = true
        rw [clientFind_set]
        by_cases hhc : h = cid
        · simp [hhc]
        · simp only [show ((⟨cid, if u = "" then "Anonymous" else u, now⟩ :
            ClientInfo)).clientId = cid from rfl, hhc, if_neg]
          exact hsess

/-- `lock.request` preserves the lock invariant when the request names a
connected participant of its session. -/
theorem lockInv_lockRequest (s : RelayState) (now : Nat) (sid cid u : String)
    (hinv : stateLockInv s = true)
    (hreq : (match assocLookup s.sessions sid with
             | some sess => (clientFind sess.clients cid).isSome
             | none => true) = true) :
    stateLockInv (handleLockRequest s now sid cid u).1 = true := by
  rcases hfound : assocLookup s.sessions sid with _ | sess
  · simpa [handleLockRequest, hfound] using hinv
  · rw [hfound] at hreq
    by_cases havail : sess.lockHolder = none ∨ sess.lockHolder = some cid
    · simp only [handleLockRequest, hfound, havail, if_pos, stateLockInv]
      exact all_inv_set _ _ _ hinv (by simpa [sessionLockInv] using hreq)
    · rcases hcf : clientFind sess.clients cid with _ | info <;>
        simpa [handleLockRequest, hfound, havail, hcf] using hinv

/-- `lock.release` preserves the lock invariant. -/
theorem lockInv_lockRelease (s : RelayState) (sid cid : String)
    (hinv : stateLockInv s = true) :
    stateLockInv (handleLockRelease s sid cid).1 = true := by
  rcases hfound : assocLookup s.sessions sid with _ | sess
  · simpa [handleLockRelease, hfound] using hinv
  · by_cases hh : sess.lockHolder = some cid
    · simp only [handleLockRelease, hfound, hh, if_pos, stateLockInv]
      exact all_inv_set _ _ _ hinv (by simp [sessionLockInv])
    · simpa [handleLockRelease, hfound, hh] using hinv

/-- `user.message` preserves the lock invariant (activity-only update). -/
theorem lockInv_userMessage (s : RelayState) (now : Nat)
    (sid cid u c : String) (hinv : stateLockInv s = true) :
    stateLockInv (handleUserMessage s now sid cid u c).1 = true := by
  rcases hfound : assocLookup s.sessions sid with _ | sess
  · simpa [handleUserMessage, hfound] using hinv
  · have hsess := sessionLockInv_of_lookup s sid sess hinv hfound
    obtain ⟨sid0, cls, holder, lun, lga, la⟩ := sess
    simp only [handleUserMessage, hfound, stateLockInv]
    split
    · exact all_inv_set _ _ _ hinv hsess
    · exact hinv

/-- `assistant.chunk` preserves the lock invariant. -/
theorem lockInv_assistantChunk (s : RelayState) (now : Nat)
    (sid cid d : String) (hinv : stateLockInv s = true) :
    stateLockInv (handleAssistantChunk s now sid cid d).1 = true := by
  rcases hfound : assocLookup s.sessions sid with _ | sess
  · simpa [handleAssistantChunk, hfound] using hinv
  · have hsess := sessionLockInv_of_lookup s sid sess hinv hfound
    obtain ⟨sid0, cls, holder, lun, lga, la⟩ := sess
    simp only [handleAssistantChunk, hfound, stateLockInv]
    split
    · exact all_inv_set _ _ _ hinv hsess
    · exact hinv

/-- `assistant.complete` preserves the lock invariant. -/
theorem lockInv_assistantComplete (s : RelayState) (now : Nat)
    (sid cid c : String) (hinv : stateLockInv s = true) :
    stateLockInv (handleAssistantComplete s now sid cid c).1 = true := by
  rcases hfound : assocLookup s.sessions sid with _ | sess
  · simpa [handleAssistantComplete, hfound] using hinv
  · have hsess := sessionLockInv_of_lookup s sid sess hinv hfound
    obtain ⟨sid0, cls, holder, lun, lga, la⟩ := sess
    simp only [handleAssistantComplete, hfound, stateLockInv]
    split
    · exact all_inv_set _ _ _ hinv hsess
    · exact hinv

/-- `tool.execute` and `tool.result` leave the registry untouched. -/
theorem lockInv_tool (s : RelayState) (sid cid tu tn inp c : String)
    (e : Bool) (hinv : stateLockInv s = true) :
    stateLockInv (handleToolExecute s sid cid tu tn inp).1 = true ∧
    stateLockInv (handleToolResult s sid cid tu c e).1 = true := by
  rcases hfound : assocLookup s.sessions sid with _ | sess <;>
    constructor <;>
      simpa [handleToolExecute, handleToolResult, hfound, stateLockInv]
        using hinv

/-- Disconnect preserves the lock invariant: the departing holder's lock is
cleared, any other holder stays in the shrunken roster. -/
theorem lockInv_disconnect (s : RelayState) (sid cid : String)
    (hinv : stateLockInv s = true) :
    stateLockInv (handleClientDisconnect s sid cid).1 = true := by
  rcases hfound : assocLookup s.sessions sid with _ | sess
  · simpa [handleClientDisconnect, hfound] using hinv
  · rcases hcf : clientFind sess.clients cid with _ | info
    · simpa [handleClientDisconnect, hfound, hcf] using hinv
    · have hsess := sessionLockInv_of_lookup s sid sess hinv hfound
      obtain ⟨sid0, cls, holder, lun, lga, la⟩ := sess
      simp only [handleClientDisconnect, hfound, hcf, stateLockInv]
      split
      · exact all_inv_erase _ _ hinv
      · split
        · refine all_inv_set _ _ _ hinv ?_
          rfl
        · rename_i hnh
          refine all_inv_set _ _ _ hinv ?_
          cases holder with
          | none => rfl
          | some h =>
            show (clientFind (clientsDelete cls cid) h).isSome = true
            have hne : h ≠ cid := fun hEq => hnh (by rw [hEq])
            rw [clientFind_delete_ne cls cid h hne]
            exact hsess

/-- The sweep preserves the lock invariant sessionwise. -/
theorem lockInv_sweep (s : RelayState) (now : Nat)
    (hinv : stateLockInv s = true) :
    stateLockInv (sweepStep s now).1 = true := by
  simp only [sweepStep, stateLockInv] at hinv ⊢
  rw [List.all_eq_true] at hinv ⊢
  intro p hp
  rcases List.mem_map.mp hp with ⟨q, hq, hpq⟩
  have hqinv := hinv q hq
  rw [← hpq]
  show sessionLockInv (sweepSession now q.2).1 = true
  unfold sweepSession
  rcases hh : q.2.lockHolder with _ | holder <;>
    rcases hg : q.2.lockGrantedAt with _ | g <;>
      simp only []
  · exact hqinv
  · exact hqinv
  · exact hqinv
  · by_cases htr : holder ≠ "" ∧ g ≠ 0
    · by_cases hstale : LOCK_TIMEOUT_MS < now - g
      · simp [htr, hstale, sessionLockInv]
      · simpa [htr, hstale] using hqinv
    · simpa [htr] using hqinv

/-- Counterexample to C1 as stated: starting from the initial relay state,
processing `client.connect` of participant `A` to session `S` and then a
`lock.request` naming the unconnected clientId `B` leaves `B` recorded as
the session's lock holder although `B` is not a connected participant of
`S` — the handler never checks the requester's membership. -/
theorem c1_counterexample :
    assocLookup cexGranted.sessions "S" =
      some (⟨"S", [⟨"A", "alice", 100⟩], some "B", some "bob", some 120,
        120⟩ : Session) ∧
    clientFind [(⟨"A", "alice", 100⟩ : ClientInfo)] "B" = none ∧
    stateLockInv cexGranted = false := by decide

/-- C1 amended: at most one participant is ever recorded as a session's lock
holder (the single nullable field admits one holder, proved as injectivity
of the recorded holder), and — provided every `lock.request` processed names
a clientId that is currently a connected participant of its session — every
relay step preserves the invariant that a non-null holder is a connected
participant of that session. -/
theorem c1_amended_lock_invariant
    (s : RelayState) (now : Nat) (e : REvent)
    (hinv : stateLockInv s = true)
    (hreq : lockRequestFromMember s e = true) :
    stateLockInv (relayStep s now e).1 = true ∧
    (∀ sid sess a b,
      assocLookup (relayStep s now e).1.sessions sid = some sess →
      sess.lockHolder = some a → sess.lockHolder = some b → a = b) := by
  refine ⟨?_, fun sid sess a b _ ha hb => ?_⟩
  · cases e with
    | msg m =>
      cases m with
      | clientConnect sid cid u => exact lockInv_connect s now sid cid u hinv
      | syncRequest sid cid =>
        rcases hfound : assocLookup s.sessions sid with _ | sess <;>
          simpa [relayStep, handleSyncRequest, hfound] using hinv
      | lockRequest sid cid u =>
        exact lockInv_lockRequest s now sid cid u hinv
          (by simpa [lockRequestFromMember] using hreq)
      | lockRelease sid cid => exact lockInv_lockRelease s sid cid hinv
      | userMessage sid cid u c =>
        exact lockInv_userMessage s now sid cid u c hinv
      | assistantChunk sid cid d =>
        exact lockInv_assistantChunk s now sid cid d hinv
      | assistantComplete sid cid c =>
        exact lockInv_assistantComplete s now sid cid c hinv
      | toolExecute sid cid tu tn inp =>
        exact (lockInv_tool s sid cid tu tn inp "" false hinv).1
      | toolResult sid cid tu c e =>
        exact (lockInv_tool s sid cid tu "" "" c e hinv).2
    | disconnect sid cid => exact lockInv_disconnect s sid cid hinv
    | sweep => exact lockInv_sweep s now hinv
  · rw [ha] at hb
    exact Option.some.inj hb

/-- Witness for C1 (amended): on the idle two-client session, the membership
precondition holds for `B`'s own lock request and stepping it keeps the
invariant. -/
theorem c1_amended_lock_invariant_witness :
    stateLockInv
      (relayStep stABIdle 200 (.msg (.lockRequest "S" "B" "bob"))).1 = true :=
  (c1_amended_lock_invariant stABIdle 200 (.msg (.lockRequest "S" "B" "bob"))
    (by decide) (by decide)).1

/-- Counterexample to C9 as stated: with project root `/proj`, the input
path `../project2/secret` resolves to `/project2/secret`, which passes the
string test the executor performs (it starts with the characters of
`/proj`) and is handed to the filesystem read, yet it lies outside the
project root directory. -/
theorem c9_counterexample :
    ToolExecutor.execute "/proj" "read_file" "../project2/secret" =
      .fsAccess "read_file" "/project2/secret" ∧
    isWithinRoot "/proj" "/project2/secret" = false ∧
    strStartsWith "/project2/secret" "/proj" = true := by decide

/-- C9 amended: on a path-carrying invocation the executor returns the
`Path must be within project root` failure, performing no filesystem
operation, exactly when the resolved path does not have the project root as
a *string prefix* — a string test, not directory containment, so a resolved
path outside the root whose text extends the root's name is not rejected
and the filesystem is touched outside the root. Any filesystem access that
does happen implies the resolved path passed that string test, and the
accessed paths are the resolved path itself or, for `write_file`'s
`fs.mkdir`, its parent directory. -/
theorem c9_amended_path_guard (root toolName p : String) :
    (ToolExecutor.execute root toolName p = .pathRejected ↔
      strStartsWith (pathResolve root p) root = false) ∧
    (accessedPaths (ToolExecutor.execute root toolName p) ≠ [] →
      strStartsWith (pathResolve root p) root = true) ∧
    (∀ fp ∈ accessedPaths (ToolExecutor.execute root toolName p),
      fp = pathResolve root p ∨ fp = pathDirname (pathResolve root p)) := by
  unfold ToolExecutor.execute
  by_cases hst : strStartsWith (pathResolve root p) root
  · simp only [hst, Bool.not_true, Bool.false_eq_true, if_false]
    refine ⟨⟨fun hre => ?_, fun hfalse => absurd hfalse (by simp)⟩,
      fun _ => trivial, fun fp hfp => ?_⟩
    · exfalso
      by_cases h1 : toolName = "read_file" <;>
        by_cases h2 : toolName = "write_file" <;>
          by_cases h3 : toolName = "list_directory" <;>
            by_cases h4 : toolName = "search_files" <;>
              simp [h1, h2, h3, h4] at hre
    · by_cases h1 : toolName = "read_file" <;>
        by_cases h2 : toolName = "write_file" <;>
          by_cases h3 : toolName = "list_directory" <;>
            by_cases h4 : toolName = "search_files" <;>
              simp [h1, h2, h3, h4, accessedPaths] at hfp <;>
                first
                | exact Or.symm hfp
                | simp [hfp]
  · have hst' : strStartsWith (pathResolve root p) root = false :=
      Bool.not_eq_true _ ▸ eq_false_of_ne_true (by simpa using hst)
    simp [hst', accessedPaths]

/-- Witness for C9 (amended): a `write_file` of `a.txt` under root `/r`
performs filesystem accesses, so its resolved path `/r/a.txt` passed the
string test. -/
theorem c9_amended_path_guard_witness :
    strStartsWith (pathResolve "/r" "a.txt") "/r" = true :=
  (c9_amended_path_guard "/r" "write_file" "a.txt").2.1 (by decide)

end ClaudeCollab
